import Mathlib

/-!
Verification of the `flex_tree` layout adapter (`src/flex_tree/layout.py`).

The adapter class `FlexTree` (in `layout.py`, present in the repository) drives
a tree of `Node` objects.  The `Node` module itself (`flex_tree/node.py`) is
imported by the adapter but is not part of the available sources, so every
`Node`-level operation below is modelled from the specification (its doc
comment starts with `Modelled from the spec:`); the `FlexTree`-level
definitions are translated directly from `layout.py`.

Payloads (window clients) are opaque identity-comparable values; we model them
as natural numbers.  Wall-clock time (used by `access()` recency stamps) is
passed explicitly as a natural number.  Python runtime failures are modelled
with an explicit error type: `AssertionError` (from the `assert` in
`definitely_find_payload`), `AttributeError` (dereferencing `None` from
`focused_node`), `ValueError` (Python `max()` on an empty sequence) and the
library's `NotRestorableError`.
-/

set_option autoImplicit false

namespace FlexSpec

/-- Orientation of a container: children laid out horizontally or vertically. -/
inductive Orient where
  | horizontal
  | vertical
  deriving DecidableEq, Repr, Inhabited

/-- Modelled from the spec: the payload-carrying data of a leaf node.
A leaf holds an opaque `payload`, a `last_accessed` timestamp, a `minimized`
flag, a size mode per axis (`fixedW`/`fixedH`: `none` means flexible on that
axis, `some v` means fixed at `v` pixels) together with a relative `weight`
(`none` = unset, meaning equal split), and the cached geometry extents
(`geomW`, `geomH`) computed by the layout solver. -/
structure LeafData where
  payload : Nat
  lastAccessed : Nat
  minimized : Bool
  fixedW : Option Int
  fixedH : Option Int
  weight : Option Nat
  geomW : Int
  geomH : Int
  deriving DecidableEq, Repr

instance : Inhabited LeafData := ⟨⟨0, 0, false, none, none, none, 0, 0⟩⟩

/-- Modelled from the spec: a `Node` is a tagged variant — a leaf holding a
payload, or a container holding an orientation and an ordered list of
children.  The root is always a container (it has no payload) and may hold
zero or one child, unlike internal containers. -/
inductive Node where
  | leaf : LeafData → Node
  | container : Orient → List Node → Node
  deriving Repr, Inhabited

mutual

/-- Modelled from the spec: the leaves of a node in depth-first pre-order
(container children visited in their stored order); this is the leaf order
used by `first_leaf`/`last_leaf`/`next_leaf`/`prev_leaf` and `all_leafs`. -/
def Node.leafDatas : Node → List LeafData
  | .leaf d => [d]
  | .container _ cs => leafDatasList cs

/-- Leaves of a list of sibling nodes, in order. -/
def leafDatasList : List Node → List LeafData
  | [] => []
  | c :: cs => c.leafDatas ++ leafDatasList cs

end

/-- The payloads of all leaves of a node, in leaf order. -/
def Node.leafPayloads (n : Node) : List Nat :=
  n.leafDatas.map LeafData.payload

/-- Look up the first leaf (in depth-first pre-order) with the given payload
among a list of leaves, returning its index in leaf order and its data.
This realises the identity semantics of `find_payload`: with duplicate
payloads the first occurrence is the one found. -/
def lookupP (p : Nat) : List LeafData → Option (Nat × LeafData)
  | [] => none
  | d :: ds =>
    if d.payload = p then some (0, d)
    else (lookupP p ds).map (fun r => (r.1 + 1, r.2))

/-- Modelled from the spec: `find_payload(payload)` — depth-first search for
the unique leaf whose payload matches, or `none`. -/
def Node.find_payload (n : Node) (p : Nat) : Option LeafData :=
  (lookupP p n.leafDatas).map (fun r => r.2)

/-- Python-level failure modes observable through the adapter: the library's
`NotRestorableError`, a failed `assert` in `definitely_find_payload`, an
`AttributeError` from dereferencing `self.focused_node` when it is `None`,
and the `ValueError` of Python `max()` on an empty sequence. -/
inductive PyError where
  | notRestorableError
  | assertionError
  | attributeError
  | valueError
  deriving DecidableEq, Repr

/-- Modelled from the spec: the add mode is a bit-combination of an axis
(HORIZONTAL or VERTICAL) with an optional SPLIT flag. -/
structure AddMode where
  orient : Orient
  split : Bool
  deriving DecidableEq, Repr

/-- Modelled from the spec: a restore memento keyed by payload.  The anchor
parent container identity is modelled as the container's tree path (child
indices from the root), together with the child index at which to reinsert
and the removed leaf's remembered weight and fixed extents. -/
structure Memento where
  payload : Nat
  path : List Nat
  index : Nat
  weight : Option Nat
  fixedW : Option Int
  fixedH : Option Int
  deriving DecidableEq, Repr

mutual

/-- Modelled from the spec: update the first leaf (in depth-first pre-order)
with payload `p`, applying `f`, which also receives the orientation `o` of
the leaf's parent container; the Bool records whether the leaf was found, so
the search stops at the first occurrence. -/
def updLeafNode (p : Nat) (f : Orient → LeafData → LeafData) (o : Orient) :
    Node → Node × Bool
  | .leaf d =>
    if d.payload = p then (.leaf (f o d), true) else (.leaf d, false)
  | .container o2 gs =>
    let r := updLeafList p f o2 gs
    (.container o2 r.1, r.2)

/-- Update the first matching leaf in a sibling list of orientation `o`. -/
def updLeafList (p : Nat) (f : Orient → LeafData → LeafData) (o : Orient) :
    List Node → List Node × Bool
  | [] => ([], false)
  | c :: cs =>
    let rc := updLeafNode p f o c
    if rc.2 then (rc.1 :: cs, true)
    else
      let r := updLeafList p f o cs
      (c :: r.1, r.2)

end

/-- Update the first leaf with payload `p` anywhere under `n`. -/
def Node.updateLeaf (n : Node) (p : Nat) (f : Orient → LeafData → LeafData) : Node :=
  match n with
  | .leaf d => .leaf d
  | .container o cs => .container o (updLeafList p f o cs).1

/-- Modelled from the spec: placement of a new leaf next to a target node
inside a parent container of orientation `o`.  Without SPLIT: insert the new
leaf adjacent to the target when the parent's orientation matches the
requested axis, otherwise wrap target and new leaf in a fresh container of
the requested orientation; with SPLIT: always wrap (divide the target's own
space); with no requested mode: insert adjacent in the parent. -/
def placeAt (o : Orient) (target new : Node) (m : Option AddMode) : List Node :=
  match m with
  | none => [target, new]
  | some am =>
    if am.split then [.container am.orient [target, new]]
    else if am.orient = o then [target, new]
    else [.container am.orient [target, new]]

mutual

/-- Modelled from the spec: `add_node(new, mode)` looked up at the first
leaf with payload `p` (depth-first); the result is `none` when the leaf is
not in this subtree, and otherwise the list of nodes that replaces the
visited node in its parent (the placement may turn one node into two
siblings or wrap it in a fresh container). -/
def addNode (p : Nat) (new : Node) (m : Option AddMode) (o : Orient) :
    Node → Option (List Node)
  | .leaf d =>
    if d.payload = p then some (placeAt o (.leaf d) new m) else none
  | .container o2 gs =>
    match addList p new m o2 gs with
    | none => none
    | some gs2 => some [.container o2 gs2]

/-- Placement inside a sibling list of orientation `o`. -/
def addList (p : Nat) (new : Node) (m : Option AddMode) (o : Orient) :
    List Node → Option (List Node)
  | [] => none
  | c :: cs =>
    match addNode p new m o c with
    | some l => some (l ++ cs)
    | none =>
      match addList p new m o cs with
      | none => none
      | some cs2 => some (c :: cs2)

end

/-- Modelled from the spec: add `new` next to the leaf with payload `p`. -/
def Node.add_node (n : Node) (p : Nat) (new : Node) (m : Option AddMode) : Node :=
  match n with
  | .leaf d => .leaf d
  | .container o cs =>
    match addList p new m o cs with
    | none => .container o cs
    | some cs2 => .container o cs2

/-- Modelled from the spec: adding when the root itself is the target (no
node focused): the new leaf is appended as a child of the root — in
particular on an empty tree it becomes the sole child of root. -/
def Node.add_at_root (n : Node) (new : Node) : Node :=
  match n with
  | .leaf d => .leaf d
  | .container o cs => .container o (cs ++ [new])

/-- Modelled from the spec: collapse — a container reduced to a single child
is replaced by that child (applied only to non-root containers below). -/
def collapse : Node → Node
  | .container _ [c] => c
  | n => n

mutual

/-- Modelled from the spec: `remove()` located at the first leaf with
payload `p` (depth-first).  `none`: the leaf is not in this subtree;
`some none`: this node itself is the removed leaf (its parent drops it);
`some (some n2)`: the leaf was removed deeper inside, and this node becomes
`n2` — a non-root container left with exactly one child is flattened. -/
def removeNode (p : Nat) : Node → Option (Option Node)
  | .leaf d => if d.payload = p then some none else none
  | .container o gs =>
    match removeInList p gs with
    | none => none
    | some gs2 => some (some (collapse (.container o gs2)))

/-- Removal inside a sibling list. -/
def removeInList (p : Nat) : List Node → Option (List Node)
  | [] => none
  | c :: cs =>
    match removeNode p c with
    | some none => some cs
    | some (some c2) => some (c2 :: cs)
    | none =>
      match removeInList p cs with
      | none => none
      | some cs2 => some (c :: cs2)

end

/-- Modelled from the spec: remove the first leaf with payload `p` under the
root (the root itself is never collapsed). -/
def Node.remove_leaf (n : Node) (p : Nat) : Node :=
  match n with
  | .leaf d => .leaf d
  | .container o cs =>
    match removeInList p cs with
    | none => .container o cs
    | some cs2 => .container o cs2

mutual

/-- Modelled from the spec: the path of child indices from this node down to
the first leaf with payload `p` (`[]` when this node is that leaf), used to
record a memento anchor. -/
def pathNode (p : Nat) : Node → Option (List Nat)
  | .leaf d => if d.payload = p then some [] else none
  | .container _ gs => pathInList p 0 gs

/-- Path search in a sibling list whose head has index `k`. -/
def pathInList (p : Nat) (k : Nat) : List Node → Option (List Nat)
  | [] => none
  | c :: cs =>
    match pathNode p c with
    | some q => some (k :: q)
    | none => pathInList p (k + 1) cs

end

/-- Modelled from the spec: the memento recorded when the leaf carrying `d`
is removed: anchor parent (its path from the root), child index, and the
leaf's remembered size data. -/
def mkMemento (root : Node) (d : LeafData) : Option Memento :=
  match pathNode d.payload root with
  | none => none
  | some [] => none
  | some q =>
    some { payload := d.payload, path := q.dropLast, index := q.getLastD 0,
           weight := d.weight, fixedW := d.fixedW, fixedH := d.fixedH }

/-- Modelled from the spec: resolve a memento anchor — walk the recorded
path down to the anchor container and reinsert `new` at the recorded child
index; fails (anchor no longer structurally valid) when the path no longer
leads to a container or the index exceeds the current child count. -/
def insertAt (new : Node) : List Nat → Nat → Node → Option Node
  | [], i, .container o cs =>
    if i ≤ cs.length then some (.container o (cs.insertIdx i new)) else none
  | [], _, .leaf _ => none
  | k :: path, i, .container o cs =>
    match cs[k]? with
    | none => none
    | some ck =>
      match insertAt new path i ck with
      | none => none
      | some ck2 => some (.container o (cs.set k ck2))
  | _ :: _, _, .leaf _ => none

/-- Modelled from the spec: `restore(new)` — if a memento exists for the new
leaf's payload and its anchor is still structurally valid, reinsert the leaf
at that exact position with its remembered weight and size mode, consuming
the memento; otherwise fail with `NotRestorableError`. -/
def Node.restore (root : Node) (mems : List Memento) (c : Nat) :
    Except PyError (Node × List Memento) :=
  match mems.find? (fun m => m.payload == c) with
  | none => .error .notRestorableError
  | some m =>
    let d : LeafData :=
      { payload := c, lastAccessed := 0, minimized := false,
        fixedW := m.fixedW, fixedH := m.fixedH, weight := m.weight,
        geomW := 0, geomH := 0 }
    match insertAt (.leaf d) m.path m.index root with
    | none => .error .notRestorableError
    | some root2 => .ok (root2, mems.filter (fun m2 => m2.payload != c))

mutual

/-- Map a function over every leaf of a node. -/
def mapLeaves (g : LeafData → LeafData) : Node → Node
  | .leaf d => .leaf (g d)
  | .container o cs => .container o (mapLeavesList g cs)

/-- Map a function over every leaf of a sibling list. -/
def mapLeavesList (g : LeafData → LeafData) : List Node → List Node
  | [] => []
  | c :: cs => mapLeaves g c :: mapLeavesList g cs

end

/-- Modelled from the spec: `swap_with` data exchange — the leaf holding
`w1` takes `w2`'s payload and size data and vice versa, all other leaves are
untouched; tree shape, positions and cached geometry stay as they are
(leaves are identified by payload, which the spec's uniqueness invariant
makes exact). -/
def swapData (w1 w2 : Nat) (d1 d2 : LeafData) (d : LeafData) : LeafData :=
  if d.payload = w1 then
    { d with payload := d2.payload, fixedW := d2.fixedW, fixedH := d2.fixedH,
             weight := d2.weight }
  else if d.payload = w2 then
    { d with payload := d1.payload, fixedW := d1.fixedW, fixedH := d1.fixedH,
             weight := d1.weight }
  else d

/-- The adapter state of class `FlexTree` (`layout.py`): the root node, the
focused client and the transient add mode; `mementos` holds the restore
mementos, which Python keeps on the root node object. -/
structure FlexTree where
  root : Node
  focused : Option Nat
  add_mode : Option AddMode
  mementos : List Memento

/-- `FlexTree.__init__`: a fresh empty root, nothing focused, no add mode. -/
def FlexTree.init : FlexTree :=
  { root := .container .horizontal [], focused := none,
    add_mode := none, mementos := [] }

/-- `definitely_find_payload`: `root.find_payload(payload)` followed by
`assert node is not None`. -/
def FlexTree.definitely_find_payload (st : FlexTree) (p : Nat) :
    Except PyError LeafData :=
  match st.root.find_payload p with
  | none => .error .assertionError
  | some d => .ok d

/-- The `focused_node` property: `root.find_payload(self.focused)` — `none`
when nothing is focused or the focused payload is absent from the tree. -/
def FlexTree.focused_node (st : FlexTree) : Option LeafData :=
  match st.focused with
  | none => none
  | some p => st.root.find_payload p

/-- A fresh leaf node for a newly added client: `Node(client)`. -/
def newLeaf (c : Nat) : Node :=
  .leaf { payload := c, lastAccessed := 0, minimized := false,
          fixedW := none, fixedH := none, weight := none, geomW := 0, geomH := 0 }

/-- The mode-based placement of `add_client`'s fallback branch:
`node.add_node(new, self.add_mode)` where `node` is the focused node, or the
root itself when nothing is focused. -/
def FlexTree.mode_placement (st : FlexTree) (c : Nat) : Node :=
  match st.focused_node with
  | none => st.root.add_at_root (newLeaf c)
  | some d => st.root.add_node d.payload (newLeaf c) st.add_mode

/-- `add_client`: first try `self.root.restore(new)`; only on
`NotRestorableError` fall back to mode-based placement; in either case clear
`self.add_mode` afterwards. -/
def FlexTree.add_client (st : FlexTree) (c : Nat) : FlexTree :=
  match st.root.restore st.mementos c with
  | .ok r => { st with root := r.1, mementos := r.2, add_mode := none }
  | .error _ => { st with root := st.mode_placement c, add_mode := none }

/-- `remove`: `definitely_find_payload(client).remove()` — assert the
payload is present, then detach its leaf, recording a restore memento that
supersedes any older memento for the same payload. -/
def FlexTree.remove (st : FlexTree) (p : Nat) : Except PyError FlexTree :=
  match st.root.find_payload p with
  | none => .error .assertionError
  | some d =>
    let newMems :=
      match mkMemento st.root d with
      | none => st.mementos
      | some m => m :: st.mementos.filter (fun m2 => m2.payload != p)
    .ok { st with root := st.root.remove_leaf p, mementos := newMems }

/-- `focus(client)`: set `self.focused`, then
`definitely_find_payload(client).access()` — assert presence and stamp
`last_accessed` with the current time (passed explicitly as `now`). -/
def FlexTree.focus (st : FlexTree) (p : Nat) (now : Nat) : Except PyError FlexTree :=
  let st1 : FlexTree := { st with focused := some p }
  match st1.root.find_payload p with
  | none => .error .assertionError
  | some _ =>
    .ok { st1 with
          root := st1.root.updateLeaf p (fun _ d => { d with lastAccessed := now }) }

/-- `focus_next(win)`: assert the payload's leaf exists, take its cyclic
successor in leaf order (`next_leaf`), and return `none` when that successor
is the tree's first leaf (leaf-order position 0 — the identity comparison
`next_leaf is self.root.first_leaf`), otherwise its payload. -/
def FlexTree.focus_next (st : FlexTree) (p : Nat) : Except PyError (Option Nat) :=
  let ls := st.root.leafDatas
  match lookupP p ls with
  | none => .error .assertionError
  | some r =>
    let j := (r.1 + 1) % ls.length
    if j = 0 then .ok none
    else .ok (some (ls.getD j default).payload)

/-- `focus_previous(win)`: assert the payload's leaf exists, take its cyclic
predecessor in leaf order (`prev_leaf`), and return `none` when that
predecessor is the tree's last leaf (leaf-order position `length - 1`),
otherwise its payload. -/
def FlexTree.focus_previous (st : FlexTree) (p : Nat) : Except PyError (Option Nat) :=
  let ls := st.root.leafDatas
  match lookupP p ls with
  | none => .error .assertionError
  | some r =>
    let j := (r.1 + ls.length - 1) % ls.length
    if j = ls.length - 1 then .ok none
    else .ok (some (ls.getD j default).payload)

/-- The candidate list of `recent`: all leaves except the focused node
(identity comparison `n is not self.focused_node` — the focused node is the
first leaf carrying the focused payload; no exclusion when nothing is
focused or the payload is absent). -/
def FlexTree.recent_candidates (st : FlexTree) : List LeafData :=
  let ls := st.root.leafDatas
  match st.focused with
  | none => ls
  | some p =>
    match lookupP p ls with
    | none => ls
    | some r => ls.eraseIdx r.1

/-- One comparison step of Python `max(..., key=...)` over `last_accessed`:
keep the current best unless the candidate is strictly more recent (ties
keep the earlier element, as Python's `max` does). -/
def accMax (a x : LeafData) : LeafData :=
  if a.lastAccessed < x.lastAccessed then x else a

/-- Python `max(nodes, key=...)` over `last_accessed`: the first element
attaining the maximal key; `none` models the `ValueError` raised on an empty
sequence. -/
def maxByAccess : List LeafData → Option LeafData
  | [] => none
  | d :: ds => some (ds.foldl accMax d)

/-- `recent()`: focus the most recently accessed leaf among all leaves other
than the focused node; the result is the payload handed to `group.focus`. -/
def FlexTree.recent (st : FlexTree) : Except PyError Nat :=
  match maxByAccess st.recent_candidates with
  | none => .error .valueError
  | some d => .ok d.payload

/-- `clone(group)`: `copy.copy(self)` followed by giving the clone a fresh
empty root (hence empty mementos, which live on the root object), no focused
window and no add mode; the group handle is external state and not
modelled. -/
def FlexTree.clone (st : FlexTree) (_group : Nat) : FlexTree :=
  { st with
    root := .container .horizontal [],
    focused := none,
    add_mode := none,
    mementos := [] }

/-- `mode_horizontal`: the next window will be added horizontally. -/
def FlexTree.mode_horizontal (st : FlexTree) : FlexTree :=
  { st with add_mode := some { orient := .horizontal, split := false } }

/-- `mode_vertical`: the next window will be added vertically. -/
def FlexTree.mode_vertical (st : FlexTree) : FlexTree :=
  { st with add_mode := some { orient := .vertical, split := false } }

/-- `mode_horizontal_split`: `AddMode.HORIZONTAL | AddMode.SPLIT`. -/
def FlexTree.mode_horizontal_split (st : FlexTree) : FlexTree :=
  { st with add_mode := some { orient := .horizontal, split := true } }

/-- `mode_vertical_split`: `AddMode.VERTICAL | AddMode.SPLIT`. -/
def FlexTree.mode_vertical_split (st : FlexTree) : FlexTree :=
  { st with add_mode := some { orient := .vertical, split := true } }

/-- The shared shape of every command that dereferences `self.focused_node`:
an `AttributeError` when the property is `None`, otherwise the update is
applied to that leaf (receiving its parent's orientation). -/
def FlexTree.on_focused (st : FlexTree) (f : Orient → LeafData → LeafData) :
    Except PyError FlexTree :=
  match st.focused_node with
  | none => .error .attributeError
  | some d => .ok { st with root := st.root.updateLeaf d.payload f }

/-- `toggle_minimize_inline`: flip the focused leaf's minimized flag
(modelled from the spec at the Node level: the leaf keeps its slot). -/
def FlexTree.toggle_minimize_inline (st : FlexTree) : Except PyError FlexTree :=
  st.on_focused (fun _ d => { d with minimized := !d.minimized })

/-- `size(x)`: set the focused leaf's extent along its parent's orientation
axis to a fixed value (modelled from the spec at the Node level). -/
def FlexTree.size (st : FlexTree) (x : Int) : Except PyError FlexTree :=
  st.on_focused (fun o d =>
    match o with
    | .horizontal => { d with fixedW := some x }
    | .vertical => { d with fixedH := some x })

/-- `width(x)`: fix the focused leaf's width. -/
def FlexTree.width (st : FlexTree) (x : Int) : Except PyError FlexTree :=
  st.on_focused (fun _ d => { d with fixedW := some x })

/-- `height(x)`: fix the focused leaf's height. -/
def FlexTree.height (st : FlexTree) (x : Int) : Except PyError FlexTree :=
  st.on_focused (fun _ d => { d with fixedH := some x })

/-- `grow(x)`: `self.focused_node.size += x` — add the delta to the current
fixed or computed extent along the parent's axis, switching to fixed
(modelled from the spec at the Node level). -/
def FlexTree.grow (st : FlexTree) (x : Int) : Except PyError FlexTree :=
  st.on_focused (fun o d =>
    match o with
    | .horizontal => { d with fixedW := some (d.fixedW.getD d.geomW + x) }
    | .vertical => { d with fixedH := some (d.fixedH.getD d.geomH + x) })

/-- `reset_size`: revert both of the focused leaf's axes to flexible
sizing. -/
def FlexTree.reset_size (st : FlexTree) : Except PyError FlexTree :=
  st.on_focused (fun _ d => { d with fixedW := none, fixedH := none })

/-- `swap(window1, window2)`: `definitely_find_payload` both arguments (the
first one first), then exchange the two leaves' payloads and size data in
place. -/
def FlexTree.swap (st : FlexTree) (w1 w2 : Nat) : Except PyError FlexTree :=
  match st.root.find_payload w1 with
  | none => .error .assertionError
  | some d1 =>
    match st.root.find_payload w2 with
    | none => .error .assertionError
    | some d2 =>
      .ok { st with root := mapLeaves (swapData w1 w2 d1 d2) st.root }

/-! Concrete layouts used by the witnesses. -/

/-- A leaf record with a given payload and access time, everything else at
its defaults. -/
def leafD (p t : Nat) : LeafData :=
  { payload := p, lastAccessed := t, minimized := false,
    fixedW := none, fixedH := none, weight := none, geomW := 0, geomH := 0 }

/-- A two-leaf layout (payloads 5 and 6), nothing focused. -/
def twoLeaves : FlexTree :=
  { root := .container .horizontal [.leaf (leafD 5 1), .leaf (leafD 6 2)],
    focused := none, add_mode := none, mementos := [] }

/-- The two-leaf layout with window 6 focused. -/
def twoLeavesF6 : FlexTree :=
  { root := .container .horizontal [.leaf (leafD 5 1), .leaf (leafD 6 2)],
    focused := some 6, add_mode := none, mementos := [] }

/-- A single-leaf layout (payload 5) with that window focused. -/
def oneLeaf : FlexTree :=
  { root := .container .horizontal [.leaf (leafD 5 1)],
    focused := some 5, add_mode := none, mementos := [] }

/-- A layout holding window 6 plus a pending memento for payload 5 anchored
at root child index 0: a restore of payload 5 succeeds here. -/
def memTree : FlexTree :=
  { root := .container .horizontal [.leaf (leafD 6 2)],
    focused := none, add_mode := none,
    mementos := [{ payload := 5, path := [], index := 0, weight := none,
                   fixedW := none, fixedH := none }] }

/-! Helper lemmas. -/

/-- A successful `lookupP` returns an index within bounds. -/
theorem lookupP_lt_length {p : Nat} :
    ∀ {ls : List LeafData} {i : Nat} {d : LeafData},
      lookupP p ls = some (i, d) → i < ls.length := by
  intro ls
  induction ls with
  | nil => intro i d h; simp [lookupP] at h
  | cons x tl ih =>
    intro i d h
    by_cases hx : x.payload = p
    · rw [lookupP, if_pos hx] at h
      simp at h
      simp [← h.1]
    · rw [lookupP, if_neg hx] at h
      cases h2 : lookupP p tl with
      | none => rw [h2] at h; simp at h
      | some r =>
        rw [h2] at h
        simp at h
        have hb := ih h2
        simp only [List.length_cons]
        omega

/-- Characterisation of `focus_next`/`focus_previous` for a present payload
(shared helper): wrap to `none` at the last/first position, step to the
neighbouring position otherwise. -/
theorem focus_cyclic_chars (st : FlexTree) (p i : Nat) (d : LeafData)
    (h : lookupP p st.root.leafDatas = some (i, d)) :
    (st.focus_next p = .ok none ↔ i = st.root.leafDatas.length - 1) ∧
    (i + 1 < st.root.leafDatas.length →
      st.focus_next p =
        .ok (some ((st.root.leafDatas.getD (i + 1) default).payload))) ∧
    (st.focus_previous p = .ok none ↔ i = 0) ∧
    (0 < i →
      st.focus_previous p =
        .ok (some ((st.root.leafDatas.getD (i - 1) default).payload))) := by
  have hi : i < st.root.leafDatas.length := lookupP_lt_length h
  have hn : 0 < st.root.leafDatas.length := Nat.lt_of_le_of_lt (Nat.zero_le i) hi
  simp only [FlexTree.focus_next, FlexTree.focus_previous, h]
  refine ⟨?_, ?_, ?_, ?_⟩
  · rcases Nat.lt_or_ge (i + 1) st.root.leafDatas.length with h1 | h1
    · rw [Nat.mod_eq_of_lt h1]
      simp
      omega
    · have he : i + 1 = st.root.leafDatas.length := by omega
      rw [he, Nat.mod_self]
      simp
      omega
  · intro h1
    rw [Nat.mod_eq_of_lt h1]
    simp
  · rcases Nat.eq_zero_or_pos i with h0 | h0
    · subst h0
      have he : 0 + st.root.leafDatas.length - 1 = st.root.leafDatas.length - 1 := by
        omega
      rw [he, Nat.mod_eq_of_lt (by omega)]
      simp
    · have he : i + st.root.leafDatas.length - 1 =
          (i - 1) + st.root.leafDatas.length := by omega
      rw [he, Nat.add_mod_right, Nat.mod_eq_of_lt (by omega)]
      have hne : ¬ (i - 1 = st.root.leafDatas.length - 1) := by omega
      simp [hne]
      omega
  · intro h0
    have he : i + st.root.leafDatas.length - 1 =
        (i - 1) + st.root.leafDatas.length := by omega
    rw [he, Nat.add_mod_right, Nat.mod_eq_of_lt (by omega)]
    have hne : ¬ (i - 1 = st.root.leafDatas.length - 1) := by omega
    simp [hne]

/-- C4: for a payload present in the tree (its leaf at position `i` of the
leaf order), `focus_next` returns `none` exactly when that leaf is the last
leaf — its cyclic successor `next_leaf` is the tree's first leaf, i.e. the
traversal wrapped — and otherwise returns the payload of the successor at
position `i + 1`; symmetrically, `focus_previous` returns `none` exactly
when the leaf is the first leaf (its cyclic predecessor is the last leaf)
and otherwise returns the payload of the predecessor at position `i - 1`. -/
theorem focus_next_previous_spec (st : FlexTree) (p i : Nat) (d : LeafData)
    (h : lookupP p st.root.leafDatas = some (i, d)) :
    (st.focus_next p = .ok none ↔ i = st.root.leafDatas.length - 1) ∧
    (i + 1 < st.root.leafDatas.length →
      st.focus_next p =
        .ok (some ((st.root.leafDatas.getD (i + 1) default).payload))) ∧
    (st.focus_previous p = .ok none ↔ i = 0) ∧
    (0 < i →
      st.focus_previous p =
        .ok (some ((st.root.leafDatas.getD (i - 1) default).payload))) :=
  focus_cyclic_chars st p i d h

/-- C4 witness: on the concrete two-leaf layout (payloads 5 then 6),
`focus_next 5` is window 6, `focus_next 6` wraps and is `none`,
`focus_previous 6` is window 5 and `focus_previous 5` wraps to `none`. -/
theorem focus_next_previous_spec_witness :
    twoLeaves.focus_next 5 = .ok (some 6) ∧
    twoLeaves.focus_next 6 = .ok none ∧
    twoLeaves.focus_previous 6 = .ok (some 5) ∧
    twoLeaves.focus_previous 5 = .ok none := by
  refine ⟨?_, ?_, ?_, ?_⟩
  · exact (focus_next_previous_spec twoLeaves 5 0 (leafD 5 1) rfl).2.1 (by decide)
  · exact (focus_next_previous_spec twoLeaves 6 1 (leafD 6 2) rfl).1.mpr (by decide)
  · exact (focus_next_previous_spec twoLeaves 6 1 (leafD 6 2) rfl).2.2.2 (by decide)
  · exact (focus_next_previous_spec twoLeaves 5 0 (leafD 5 1) rfl).2.2.1.mpr rfl

/-- C10: in a tree containing exactly one leaf, `focus_next` and
`focus_previous` on that leaf's payload both return `none`: the single leaf
is simultaneously the first and last leaf, so the wrap-detection comparison
classifies its own cyclic successor and predecessor as a wraparound. -/
theorem single_leaf_focus_next_previous_none (st : FlexTree) (d : LeafData)
    (h : st.root.leafDatas = [d]) :
    st.focus_next d.payload = .ok none ∧
    st.focus_previous d.payload = .ok none := by
  have hl : lookupP d.payload st.root.leafDatas = some (0, d) := by
    rw [h, lookupP, if_pos rfl]
  refine ⟨?_, ?_⟩
  · exact (focus_cyclic_chars st d.payload 0 d hl).1.mpr (by simp [h])
  · exact (focus_cyclic_chars st d.payload 0 d hl).2.2.1.mpr rfl

/-- C10 witness: the single-leaf layout with payload 5. -/
theorem single_leaf_focus_next_previous_none_witness :
    oneLeaf.focus_next 5 = .ok none ∧ oneLeaf.focus_previous 5 = .ok none :=
  single_leaf_focus_next_previous_none oneLeaf (leafD 5 1) rfl

/-- C5: the add-mode toggle set by the `mode_*` commands is per-instance
transient state consumed by the next add: the four commands set the
instance's `add_mode` field, and after every `add_client` call — whether
the restore path or the mode-based path was taken — the field is `none`. -/
theorem add_mode_consumed (st : FlexTree) (c : Nat) :
    (st.add_client c).add_mode = none ∧
    st.mode_horizontal.add_mode = some { orient := .horizontal, split := false } ∧
    st.mode_vertical.add_mode = some { orient := .vertical, split := false } ∧
    st.mode_horizontal_split.add_mode =
      some { orient := .horizontal, split := true } ∧
    st.mode_vertical_split.add_mode =
      some { orient := .vertical, split := true } := by
  refine ⟨?_, rfl, rfl, rfl, rfl⟩
  unfold FlexTree.add_client
  cases st.root.restore st.mementos c <;> rfl

/-- C7: `clone` returns an instance whose root is a freshly created empty
container — sharing no leaves with the original tree, as its leaf list is
empty — whose focused window is `none` and whose add mode is `none`; being
a pure function of the original state, cloning leaves the original
instance's fields untouched. -/
theorem clone_fresh (st : FlexTree) (g : Nat) :
    (st.clone g).root = .container .horizontal [] ∧
    (st.clone g).root.leafPayloads = [] ∧
    (st.clone g).focused = none ∧
    (st.clone g).add_mode = none :=
  ⟨rfl, rfl, rfl, rfl⟩

/-- C1: `add_client` first attempts the memento-based restore of the new
leaf; when the restore succeeds the layout adopts exactly the restored tree
and consumed memento list, performing no mode-based placement, and the
mode-based fallback (`add_node` on the focused node, or the root when
nothing is focused) happens precisely when the restore fails — which it can
only do with `NotRestorableError`. -/
theorem add_client_restore_first (st : FlexTree) (c : Nat) :
    (∀ r, st.root.restore st.mementos c = .ok r →
      (st.add_client c).root = r.1 ∧ (st.add_client c).mementos = r.2) ∧
    (∀ e, st.root.restore st.mementos c = .error e →
      e = .notRestorableError ∧
      (st.add_client c).root = st.mode_placement c ∧
      (st.add_client c).mementos = st.mementos) := by
  constructor
  · intro r hr
    unfold FlexTree.add_client
    rw [hr]
    exact ⟨rfl, rfl⟩
  · intro e he
    refine ⟨?_, ?_⟩
    · simp only [Node.restore] at he
      cases h1 : st.mementos.find? (fun m => m.payload == c) with
      | none =>
        rw [h1] at he
        simp at he
        exact he.symm
      | some m =>
        rw [h1] at he
        dsimp only at he
        cases h2 : insertAt
            (.leaf { payload := c, lastAccessed := 0, minimized := false,
                     fixedW := m.fixedW, fixedH := m.fixedH, weight := m.weight,
                     geomW := 0, geomH := 0 })
            m.path m.index st.root with
        | none =>
          rw [h2] at he
          simp at he
          exact he.symm
        | some root2 =>
          rw [h2] at he
          simp at he
    · unfold FlexTree.add_client
      rw [he]
      exact ⟨rfl, rfl⟩

/-- C1 witness: on `memTree` the pending memento for payload 5 is restored
at root child index 0 and no mode placement happens; on the fresh layout
the restore fails with `NotRestorableError` and the fallback placement is
taken. -/
theorem add_client_restore_first_witness :
    (memTree.add_client 5).root =
      .container .horizontal [.leaf (leafD 5 0), .leaf (leafD 6 2)] ∧
    (memTree.add_client 5).mementos = [] ∧
    (FlexTree.init.add_client 7).root = FlexTree.init.mode_placement 7 := by
  refine ⟨?_, ?_, ?_⟩
  · exact ((add_client_restore_first memTree 5).1
      (.container .horizontal [.leaf (leafD 5 0), .leaf (leafD 6 2)], []) rfl).1
  · exact ((add_client_restore_first memTree 5).1
      (.container .horizontal [.leaf (leafD 5 0), .leaf (leafD 6 2)], []) rfl).2
  · exact ((add_client_restore_first FlexTree.init 7).2 .notRestorableError rfl).2.1

/-- C6: when the restore path fails, `add_client` inserts at the focused
node when one exists, and targets the root node itself otherwise; in
particular on an empty tree — where nothing can be focused — the new leaf
becomes the sole child of root. -/
theorem add_client_target (st : FlexTree) (c : Nat)
    (hre : st.root.restore st.mementos c = .error .notRestorableError) :
    (st.focused_node = none →
      (st.add_client c).root = st.root.add_at_root (newLeaf c)) ∧
    (∀ d, st.focused_node = some d →
      (st.add_client c).root = st.root.add_node d.payload (newLeaf c) st.add_mode) ∧
    (∀ o, st.root = .container o [] →
      (st.add_client c).root = .container o [newLeaf c]) := by
  have hroot : (st.add_client c).root = st.mode_placement c := by
    unfold FlexTree.add_client
    rw [hre]
  refine ⟨?_, ?_, ?_⟩
  · intro hf
    rw [hroot]
    unfold FlexTree.mode_placement
    rw [hf]
  · intro d hf
    rw [hroot]
    unfold FlexTree.mode_placement
    rw [hf]
  · intro o hr
    have hf : st.focused_node = none := by
      unfold FlexTree.focused_node
      cases hfo : st.focused with
      | none => rfl
      | some p =>
        simp [Node.find_payload, hr, Node.leafDatas, leafDatasList, lookupP]
    rw [hroot]
    unfold FlexTree.mode_placement
    rw [hf, hr]
    rfl

/-- C6 witness: on the fresh empty layout the added client becomes the sole
child of root, and with window 6 focused in the two-leaf layout the
insertion targets the focused node. -/
theorem add_client_target_witness :
    (FlexTree.init.add_client 7).root = .container .horizontal [newLeaf 7] ∧
    (twoLeavesF6.add_client 7).root =
      twoLeavesF6.root.add_node 6 (newLeaf 7) none := by
  refine ⟨?_, ?_⟩
  · exact (add_client_target FlexTree.init 7 rfl).2.2 .horizontal rfl
  · exact (add_client_target twoLeavesF6 7 rfl).2.1 (leafD 6 2) rfl

/-- C2 counterexample: on the freshly initialised layout no window is
focused, the `focused_node` property is `None`, and every one of the six
minimize/resize operations dereferences it and fails with an
`AttributeError` — so these operations are not total. -/
theorem resize_ops_not_total :
    FlexTree.init.toggle_minimize_inline = .error .attributeError ∧
    FlexTree.init.size 100 = .error .attributeError ∧
    FlexTree.init.width 100 = .error .attributeError ∧
    FlexTree.init.height 100 = .error .attributeError ∧
    FlexTree.init.grow 10 = .error .attributeError ∧
    FlexTree.init.reset_size = .error .attributeError :=
  ⟨rfl, rfl, rfl, rfl, rfl, rfl⟩

/-- C2 amended: the minimize-toggling and resize operations are total
exactly on states with a valid focus — whenever the focused payload is
present in the tree they succeed with a normal result, and when no window
is focused or the focused payload is absent from the tree they fail by
dereferencing `None` (an `AttributeError`) rather than being a no-op. -/
theorem resize_ops_total_iff_focused (st : FlexTree) (x : Int) :
    (st.focused_node = none →
      st.toggle_minimize_inline = .error .attributeError ∧
      st.size x = .error .attributeError ∧
      st.width x = .error .attributeError ∧
      st.height x = .error .attributeError ∧
      st.grow x = .error .attributeError ∧
      st.reset_size = .error .attributeError) ∧
    (∀ d, st.focused_node = some d →
      (∃ s, st.toggle_minimize_inline = .ok s) ∧
      (∃ s, st.size x = .ok s) ∧
      (∃ s, st.width x = .ok s) ∧
      (∃ s, st.height x = .ok s) ∧
      (∃ s, st.grow x = .ok s) ∧
      (∃ s, st.reset_size = .ok s)) := by
  constructor
  · intro hf
    refine ⟨?_, ?_, ?_, ?_, ?_, ?_⟩ <;>
      simp [FlexTree.toggle_minimize_inline, FlexTree.size, FlexTree.width,
            FlexTree.height, FlexTree.grow, FlexTree.reset_size,
            FlexTree.on_focused, hf]
  · intro d hf
    refine ⟨?_, ?_, ?_, ?_, ?_, ?_⟩ <;>
    · simp only [FlexTree.toggle_minimize_inline, FlexTree.size, FlexTree.width,
                 FlexTree.height, FlexTree.grow, FlexTree.reset_size,
                 FlexTree.on_focused, hf]
      exact ⟨_, rfl⟩

/-- C2 witness: with window 5 focused in the single-leaf layout the
operations succeed, while on the fresh unfocused layout they fail. -/
theorem resize_ops_total_iff_focused_witness :
    (∃ s, oneLeaf.toggle_minimize_inline = .ok s) ∧
    (∃ s, oneLeaf.grow 10 = .ok s) ∧
    FlexTree.init.width 100 = .error .attributeError := by
  refine ⟨?_, ?_, ?_⟩
  · exact ((resize_ops_total_iff_focused oneLeaf 10).2 (leafD 5 1) rfl).1
  · exact ((resize_ops_total_iff_focused oneLeaf 10).2 (leafD 5 1) rfl).2.2.2.2.1
  · exact ((resize_ops_total_iff_focused FlexTree.init 100).1 rfl).2.2.1

/-- C3: `remove`, `focus`, `focus_next`, `focus_previous` and `swap` (with
the payload as either argument) fail by the `definitely_find_payload`
assertion when the payload is absent from the tree — a fatal contract
violation, not a recoverable result — and when the payloads involved are
present the same operations never trip that assertion. -/
theorem payload_lookup_contract (st : FlexTree) (p q now : Nat) :
    (st.root.find_payload p = none →
      st.remove p = .error .assertionError ∧
      st.focus p now = .error .assertionError ∧
      st.focus_next p = .error .assertionError ∧
      st.focus_previous p = .error .assertionError ∧
      st.swap p q = .error .assertionError ∧
      st.swap q p = .error .assertionError) ∧
    (∀ d, st.root.find_payload p = some d →
      (∃ s, st.remove p = .ok s) ∧
      (∃ s, st.focus p now = .ok s) ∧
      (∃ r, st.focus_next p = .ok r) ∧
      (∃ r, st.focus_previous p = .ok r) ∧
      (∀ d2, st.root.find_payload q = some d2 →
        (∃ s, st.swap p q = .ok s) ∧ (∃ s, st.swap q p = .ok s))) := by
  constructor
  · intro hf
    have hl : lookupP p st.root.leafDatas = none := by
      cases h2 : lookupP p st.root.leafDatas with
      | none => rfl
      | some r =>
        unfold Node.find_payload at hf
        rw [h2] at hf
        simp at hf
    refine ⟨?_, ?_, ?_, ?_, ?_, ?_⟩
    · unfold FlexTree.remove
      rw [hf]
    · simp [FlexTree.focus, Node.find_payload, hl]
    · simp [FlexTree.focus_next, hl]
    · simp [FlexTree.focus_previous, hl]
    · unfold FlexTree.swap
      rw [hf]
    · unfold FlexTree.swap
      cases h2 : st.root.find_payload q with
      | none => rfl
      | some d2 => rw [hf]
  · intro d hf
    obtain ⟨i, hl⟩ : ∃ i, lookupP p st.root.leafDatas = some (i, d) := by
      cases h2 : lookupP p st.root.leafDatas with
      | none =>
        unfold Node.find_payload at hf
        rw [h2] at hf
        simp at hf
      | some r =>
        unfold Node.find_payload at hf
        rw [h2] at hf
        simp at hf
        exact ⟨r.1, by rw [← hf]⟩
    refine ⟨?_, ?_, ?_, ?_, ?_⟩
    · simp only [FlexTree.remove, hf]
      exact ⟨_, rfl⟩
    · simp only [FlexTree.focus, Node.find_payload, hl]
      exact ⟨_, rfl⟩
    · simp only [FlexTree.focus_next, hl]
      split
      · exact ⟨_, rfl⟩
      · exact ⟨_, rfl⟩
    · simp only [FlexTree.focus_previous, hl]
      split
      · exact ⟨_, rfl⟩
      · exact ⟨_, rfl⟩
    · intro d2 hf2
      constructor
      · simp only [FlexTree.swap, hf, hf2]
        exact ⟨_, rfl⟩
      · simp only [FlexTree.swap, hf, hf2]
        exact ⟨_, rfl⟩

/-- C3 witness: payload 9 is absent from the two-leaf layout and trips the
assertion; payloads 5 and 6 are present and the operations succeed. -/
theorem payload_lookup_contract_witness :
    twoLeaves.remove 9 = .error .assertionError ∧
    twoLeaves.swap 6 9 = .error .assertionError ∧
    (∃ s, twoLeaves.remove 5 = .ok s) ∧
    (∃ s, twoLeaves.focus 5 3 = .ok s) ∧
    (∃ s, twoLeaves.swap 5 6 = .ok s) := by
  refine ⟨?_, ?_, ?_, ?_, ?_⟩
  · exact ((payload_lookup_contract twoLeaves 9 6 0).1 rfl).1
  · exact ((payload_lookup_contract twoLeaves 9 6 0).1 rfl).2.2.2.2.2
  · exact ((payload_lookup_contract twoLeaves 5 6 3).2 (leafD 5 1) rfl).1
  · exact ((payload_lookup_contract twoLeaves 5 6 3).2 (leafD 5 1) rfl).2.1
  · exact (((payload_lookup_contract twoLeaves 5 6 3).2 (leafD 5 1) rfl).2.2.2.2
      (leafD 6 2) rfl).1

/-- The fold underlying `maxByAccess` returns its accumulator or a list
element. -/
theorem foldlMax_mem (ds : List LeafData) (acc : LeafData) :
    ds.foldl accMax acc = acc ∨ ds.foldl accMax acc ∈ ds := by
  induction ds generalizing acc with
  | nil => left; rfl
  | cons x tl ih =>
    simp only [List.foldl_cons]
    rcases ih (accMax acc x) with h | h
    · rw [h]
      unfold accMax
      by_cases hc : acc.lastAccessed < x.lastAccessed
      · right
        rw [if_pos hc]
        exact List.mem_cons_self x tl
      · left
        rw [if_neg hc]
    · right
      exact List.mem_cons_of_mem x h

/-- The fold underlying `maxByAccess` dominates its accumulator and every
list element. -/
theorem foldlMax_ge (ds : List LeafData) (acc : LeafData) :
    acc.lastAccessed ≤ (ds.foldl accMax acc).lastAccessed ∧
    ∀ x ∈ ds, x.lastAccessed ≤ (ds.foldl accMax acc).lastAccessed := by
  induction ds generalizing acc with
  | nil => exact ⟨Nat.le_refl _, by simp⟩
  | cons y tl ih =>
    simp only [List.foldl_cons]
    have hstep : acc.lastAccessed ≤ (accMax acc y).lastAccessed ∧
        y.lastAccessed ≤ (accMax acc y).lastAccessed := by
      unfold accMax
      by_cases hc : acc.lastAccessed < y.lastAccessed
      · rw [if_pos hc]
        exact ⟨Nat.le_of_lt hc, Nat.le_refl _⟩
      · rw [if_neg hc]
        exact ⟨Nat.le_refl _, Nat.le_of_not_lt hc⟩
    have h1 := ih (accMax acc y)
    refine ⟨Nat.le_trans hstep.1 h1.1, ?_⟩
    intro x hx
    rcases List.mem_cons.mp hx with rfl | hx2
    · exact Nat.le_trans hstep.2 h1.1
    · exact h1.2 x hx2

/-- `maxByAccess` of a nonempty list is a member dominating every element. -/
theorem maxByAccess_spec (ls : List LeafData) (d : LeafData)
    (h : maxByAccess ls = some d) :
    d ∈ ls ∧ ∀ x ∈ ls, x.lastAccessed ≤ d.lastAccessed := by
  cases ls with
  | nil => simp [maxByAccess] at h
  | cons y ys =>
    simp only [maxByAccess, Option.some_inj] at h
    subst h
    constructor
    · rcases foldlMax_mem ys y with h | h
      · rw [h]
        exact List.mem_cons_self y ys
      · exact List.mem_cons_of_mem y h
    · intro x hx
      rcases List.mem_cons.mp hx with rfl | hx2
      · exact (foldlMax_ge ys x).1
      · exact (foldlMax_ge ys y).2 x hx2

/-- Under payload uniqueness, erasing the position found by `lookupP`
removes every occurrence of that payload. -/
theorem lookupP_eraseIdx_payload_ne (p : Nat) :
    ∀ (ls : List LeafData) (i : Nat) (df : LeafData),
      lookupP p ls = some (i, df) → (ls.map LeafData.payload).Nodup →
      ∀ d ∈ ls.eraseIdx i, d.payload ≠ p := by
  intro ls
  induction ls with
  | nil => intro i df h; simp [lookupP] at h
  | cons x tl ih =>
    intro i df h hnd d hd
    rw [List.map_cons] at hnd
    have hnd2 := List.nodup_cons.mp hnd
    by_cases hx : x.payload = p
    · rw [lookupP, if_pos hx] at h
      simp at h
      rw [← h.1] at hd
      simp only [List.eraseIdx_cons_zero] at hd
      intro hdp
      exact hnd2.1 (by
        rw [hx, ← hdp]
        exact List.mem_map_of_mem LeafData.payload hd)
    · rw [lookupP, if_neg hx] at h
      cases h2 : lookupP p tl with
      | none =>
        rw [h2] at h
        simp at h
      | some r =>
        rw [h2] at h
        simp at h
        rw [← h.1] at hd
        simp only [List.eraseIdx_cons_succ] at hd
        rcases List.mem_cons.mp hd with rfl | hd2
        · exact hx
        · exact ih r.1 r.2 h2 hnd2.2 d hd2

/-- C8: whenever at least one candidate exists, `recent` focuses a leaf of
the candidate list — all leaves of the tree except the currently focused
node — whose `last_accessed` is maximal among those candidates; under the
payload-uniqueness invariant the focused leaf itself is never selected. -/
theorem recent_most_recent_other (st : FlexTree)
    (hne : st.recent_candidates ≠ []) :
    ∃ d, maxByAccess st.recent_candidates = some d ∧
      st.recent = .ok d.payload ∧
      d ∈ st.recent_candidates ∧
      (∀ x ∈ st.recent_candidates, x.lastAccessed ≤ d.lastAccessed) ∧
      (st.root.leafPayloads.Nodup →
        ∀ p, st.focused = some p →
          ∀ r, lookupP p st.root.leafDatas = some r → d.payload ≠ p) := by
  obtain ⟨d0, hs⟩ : ∃ d0, maxByAccess st.recent_candidates = some d0 := by
    cases hc : st.recent_candidates with
    | nil => exact absurd hc hne
    | cons y ys => exact ⟨ys.foldl accMax y, by rw [maxByAccess]⟩
  have hspec := maxByAccess_spec _ _ hs
  refine ⟨d0, hs, ?_, hspec.1, hspec.2, ?_⟩
  · unfold FlexTree.recent
    rw [hs]
  · intro hnd p hfo r hlr
    have hcand : st.recent_candidates = st.root.leafDatas.eraseIdx r.1 := by
      simp only [FlexTree.recent_candidates, hfo, hlr]
    refine lookupP_eraseIdx_payload_ne p st.root.leafDatas r.1 r.2 hlr ?_ d0 ?_
    · simpa [Node.leafPayloads] using hnd
    · rw [← hcand]
      exact hspec.1

/-- C8 witness: in the two-leaf layout with window 6 focused, `recent`
selects window 5 — the most recently used other leaf. -/
theorem recent_most_recent_other_witness :
    ∃ d, maxByAccess twoLeavesF6.recent_candidates = some d ∧
      twoLeavesF6.recent = .ok d.payload ∧
      d ∈ twoLeavesF6.recent_candidates ∧
      (∀ x ∈ twoLeavesF6.recent_candidates, x.lastAccessed ≤ d.lastAccessed) ∧
      (twoLeavesF6.root.leafPayloads.Nodup →
        ∀ p, twoLeavesF6.focused = some p →
          ∀ r, lookupP p twoLeavesF6.root.leafDatas = some r →
            d.payload ≠ p) :=
  recent_most_recent_other twoLeavesF6 (by decide)

/-- C9: when the focused leaf is the only leaf of the tree, or no leaf
exists at all, the candidate list of `recent` is empty and the Python
`max()` raises a `ValueError` — `recent` fails rather than producing a
no-op result. -/
theorem recent_fails_without_other (st : FlexTree) :
    (st.root.leafDatas = [] → st.recent = .error .valueError) ∧
    (∀ d, st.root.leafDatas = [d] → st.focused = some d.payload →
      st.recent = .error .valueError) := by
  constructor
  · intro h
    have hc : st.recent_candidates = [] := by
      unfold FlexTree.recent_candidates
      cases hfo : st.focused with
      | none => simp [h]
      | some p => simp [h, lookupP]
    unfold FlexTree.recent
    rw [hc]
    rfl
  · intro d h hfo
    have hc : st.recent_candidates = [] := by
      unfold FlexTree.recent_candidates
      rw [hfo, h]
      simp [lookupP]
    unfold FlexTree.recent
    rw [hc]
    rfl

/-- C9 witness: in the single-leaf layout with its window focused, `recent`
fails with a `ValueError`. -/
theorem recent_fails_without_other_witness :
    oneLeaf.recent = .error .valueError :=
  (recent_fails_without_other oneLeaf).2 (leafD 5 1) rfl rfl

end FlexSpec
